import Mathlib

/-!
Verification of the hashmap2 repository: an adaptive, DoS-resistant Robin Hood
hash table.  Arithmetic on machine integers (`u64`, `usize`) is embedded as
`Nat` with explicit reduction modulo `2 ^ 64` where the source wraps.
Fallible operations (Rust panics) are embedded as `Option`.

The repository sources under `src/` contain the adaptive layer
(`adaptive_hashing.rs`, `adaptive_map.rs`, `entry.rs`, `internal_entry.rs`,
`sip_hash_state.rs`).  The Robin Hood raw table and the map façade
(`table.rs`, `lib.rs`) are not among the provided sources; where claims need
them they are modelled from the spec (§3, §4.1, §4.3, §4.5), with doc
comments marking each such definition.
-/

namespace Hashmap2

/-! ### u64 arithmetic -/

/-- `2 ^ 64`, the modulus of `u64` arithmetic. -/
def U64MOD : Nat := 2 ^ 64

/-- Prime used in XXH64's finalizer (`adaptive_hashing.rs`). -/
def PRIME_2 : Nat := 14029467366897019727

/-- Prime used in XXH64's finalizer (`adaptive_hashing.rs`). -/
def PRIME_3 : Nat := 1609587929392839161

/-- Xxhash's finalizer, from `adaptive_hashing.rs::mix`:
`hash ^= hash >> 33; hash = hash.wrapping_mul(PRIME_2); hash ^= hash >> 29;
hash = hash.wrapping_mul(PRIME_3); hash ^= hash >> 32`. -/
def mix (data : Nat) : Nat :=
  let h1 := data ^^^ (data >>> 33)
  let h2 := h1 * PRIME_2 % U64MOD
  let h3 := h2 ^^^ (h2 >>> 29)
  let h4 := h3 * PRIME_3 % U64MOD
  h4 ^^^ (h4 >>> 32)

/-- The value of a byte list read as a little-endian integer
(byte `i` has weight `256 ^ i`). -/
def leValue (bytes : List Nat) : Nat :=
  bytes.foldr (fun b acc => acc * 256 + b % 256) 0

/-- `adaptive_hashing.rs::load_u64_le`: load a u64 word from the first `len`
bytes of `buf`, in little-endian order (`ptr::copy_nonoverlapping` of `len`
bytes into a zeroed u64, then `to_le`). -/
def load_u64_le (buf : List Nat) (len : Nat) : Nat :=
  leValue (buf.take len)

/-! ### The adaptive hasher (`adaptive_hashing.rs`)

`SipHasher13` comes from the standard library, not this repository; it is
embedded abstractly: the hasher state is the list of bytes written so far and
`finish` applies a parameter function `sipFinish` standing for the keyed
SipHash-1-3 finalisation. -/

/-- `adaptive_hashing.rs::AdaptiveHasher`: `safe_hasher` is `some` of the
accumulated message when in safe mode, `none` in fast mode; `hash` is the
fast-mode accumulator. -/
structure AdaptiveHasher where
  safe_hasher : Option (List Nat)
  hash : Nat

/-- `Hasher::write` for `AdaptiveHasher`.  In safe mode the bytes are fed to
the SipHash hasher; in fast mode the message is loaded as a little-endian u64
and mixed, and a message longer than 8 bytes panics (`none`). -/
def AdaptiveHasher.write (h : AdaptiveHasher) (msg : List Nat) :
    Option AdaptiveHasher :=
  match h.safe_hasher with
  | some buf => some { h with safe_hasher := some (buf ++ msg) }
  | none =>
    if msg.length ≤ 8 then
      some { h with hash := mix (load_u64_le msg msg.length) }
    else
      none

/-- `Hasher::finish` for `AdaptiveHasher`; `sipFinish` stands for
`SipHasher13::finish` on the accumulated message. -/
def AdaptiveHasher.finish (sipFinish : List Nat → Nat) (h : AdaptiveHasher) :
    Nat :=
  match h.safe_hasher with
  | some buf => sipFinish buf
  | none => h.hash

/-- The freshly built fast-mode hasher
(`AdaptiveState::build_hasher` with `inner = None`). -/
def fastHasher : AdaptiveHasher := ⟨none, 0⟩

/-- The freshly built safe-mode hasher
(`AdaptiveState::build_hasher` with `inner = Some _`). -/
def safeHasher : AdaptiveHasher := ⟨some [], 0⟩

/-! ### The secret source and `SipHashState` (`sip_hash_state.rs`)

`SipHashState::new` reads a `thread_local!` pair `KEYS`, initialised once per
thread from `rand::OsRng`.  The OS RNG is embedded as a stream of u64 draws
together with a counter of consumed draws; the thread-local cell is an
`Option` cache. -/

/-- The keyed state of the safe hasher (`sip_hash_state.rs::SipHashState`). -/
structure SipHashState where
  k0 : Nat
  k1 : Nat
deriving DecidableEq

/-- The per-thread environment of `SipHashState::new`: the `thread_local!`
`KEYS` cache and the OS secret source, a stream of u64 values of which
`used` have been consumed. -/
structure ThreadCtx where
  keysCache : Option (Nat × Nat)
  stream : Nat → Nat
  used : Nat

/-- `sip_hash_state.rs::SipHashState::new`: if the thread-local `KEYS` pair is
already initialised it is reused; otherwise two values are drawn from the OS
RNG, cached, and used. -/
def SipHashState.new (ctx : ThreadCtx) : SipHashState × ThreadCtx :=
  match ctx.keysCache with
  | some (a, b) => (⟨a, b⟩, ctx)
  | none =>
    let a := ctx.stream ctx.used
    let b := ctx.stream (ctx.used + 1)
    (⟨a, b⟩, { ctx with keysCache := some (a, b), used := ctx.used + 2 })

/-- `adaptive_hashing.rs::AdaptiveState`: `inner = none` is fast mode,
`inner = some st` is safe mode with sip state `st`. -/
structure AdaptiveState where
  inner : Option SipHashState

/-- `AdaptiveState::new_for_safe_hashing`, threading the per-thread context. -/
def AdaptiveState.new_for_safe_hashing (ctx : ThreadCtx) :
    AdaptiveState × ThreadCtx :=
  let (st, ctx') := SipHashState.new ctx
  (⟨some st⟩, ctx')

/-- `AdaptiveState::new_for_fast_hashing`. -/
def AdaptiveState.new_for_fast_hashing : AdaptiveState := ⟨none⟩

/-- `AdaptiveState::switch_to_safe_hashing`:
`*self = AdaptiveState::new_for_safe_hashing()` (the old state is discarded
regardless of its mode). -/
def AdaptiveState.switch_to_safe_hashing (_old : AdaptiveState)
    (ctx : ThreadCtx) : AdaptiveState × ThreadCtx :=
  AdaptiveState.new_for_safe_hashing ctx

/-- `AdaptiveState::uses_safe_hashing`. -/
def AdaptiveState.uses_safe_hashing (s : AdaptiveState) : Bool :=
  s.inner.isSome

/-! ### Displacement (`entry.rs::VacantEntryState::displacement`) -/

/-- The source's displacement computation
(`entry.rs`, copied from `FullBucket::displacement`):
`index.wrapping_sub(hash.inspect() as usize) & (table_capacity - 1)`,
on 64-bit `usize`. -/
def displacement_src (index hash capacity : Nat) : Nat :=
  ((index + (U64MOD - hash % U64MOD)) % U64MOD) &&& (capacity - 1)

/-- The spec's displacement (§3): `(i − ideal(i)) mod capacity` where
`ideal(i) = hash mod capacity`.  Stated over `Nat` as
`(i + capacity − hash % capacity) % capacity`. -/
def displacement_spec (index hash capacity : Nat) : Nat :=
  (index + capacity - hash % capacity) % capacity

/-! ### The raw table and map façade

Modelled from the spec: the Robin Hood raw table (`table.rs`) and the map
façade (`lib.rs`) are not among the provided sources; the definitions below
follow §3 (data model), §4.1 (raw table), §4.3 (search and Robin Hood
insertion / removal) and §4.5 (map façade, growth policy) of the spec, and
`adaptive_map.rs` / `entry.rs` / `internal_entry.rs` where those are the
sources.  Buckets map a slot index to an optional triple
`(stored hash, key, value)`; a bucket is full iff it is `some`.

The map's hash builder is `Option Unit`: `none` is fast mode, `some ()` is
safe mode.  The spec assumes single-threaded use (§5) and `SipHashState::new`
caches its keys per thread (see `SipHashState.new` above), so all safe states
occurring in one map's life hash identically; the hash function of each mode
is the parameter `hashK` below. -/

/-- A bucket store: the triple-parallel arrays of spec §4.1, represented as
a list of 32-slot chunks (capacities are powers of two and the allocated
tables have capacity a multiple of 32, so the chunking is exact); slot `i`
holds an optional triple (stored hash, key, value). -/
abbrev Buckets (K V : Type) := List (List (Option (Nat × K × V)))

/-- Read bucket `i`. -/
def bGet {K V : Type} (b : Buckets K V) (i : Nat) : Option (Nat × K × V) :=
  (b.getD (i / 32) []).getD (i % 32) none

/-- Modelled from the spec (§3, §4.1): the raw table state, `capacity`,
`size` (count of full buckets) and the bucket arrays. -/
structure RawTableM (K V : Type) where
  cap : Nat
  size : Nat
  buckets : Buckets K V

/-- Pointwise update of a bucket store. -/
def upd {K V : Type} (b : Buckets K V) (i : Nat) (e : Option (Nat × K × V)) :
    Buckets K V :=
  b.set (i / 32) ((b.getD (i / 32) []).set (i % 32) e)

/-- The zero-filled bucket store of a given capacity (spec §4.1). -/
def freshBuckets (K V : Type) (c : Nat) : Buckets K V :=
  List.replicate (c / 32) (List.replicate 32 none)

/-- The zero-filled table of a given capacity (spec §4.1 `allocate`). -/
def freshTable (K V : Type) (c : Nat) : RawTableM K V :=
  ⟨c, 0, freshBuckets K V c⟩

/-- Displacement of slot `i` holding stored hash `h` in a table of capacity
`c` (spec §3); agrees with the source's `displacement` on power-of-two
capacities (see claim C8). -/
def dispAt (c i h : Nat) : Nat := (i + c - h % c) % c

/-- `internal_entry.rs::InternalEntry`, with the two `VacantEntryState`
shapes of `entry.rs` (`NoElem` / `NeqElem`) inlined, plus a fuel-exhaustion
marker for the probe loop (never reached on well-formed tables). -/
inductive InternalEntryM where
  | occupied (i : Nat)
  | vacantNo (i : Nat)
  | vacantNeq (i : Nat) (p : Nat)
  | tableEmpty
  | fuelOut
deriving DecidableEq

section MapModel

variable {K V : Type} [DecidableEq K]

/-- Modelled from the spec (§4.3 Search): walk from the ideal index with
probe count `p`; an empty bucket yields `NoElem`, a full bucket whose
displacement is below the probe count yields `NeqElem` (the slot to steal),
a hash-and-key match yields `Occupied`, anything else advances. -/
def searchLoop (t : RawTableM K V) (h : Nat) (k : K) :
    Nat → Nat → Nat → InternalEntryM
  | 0, _, _ => .fuelOut
  | fuel + 1, i, p =>
    match bGet t.buckets i with
    | none => .vacantNo i
    | some (h', k', _) =>
      if dispAt t.cap i h' < p then .vacantNeq i p
      else if h' = h ∧ k' = k then .occupied i
      else searchLoop t h k fuel ((i + 1) % t.cap) (p + 1)

/-- Modelled from the spec (§4.3): `search_hashed` starts at
`i = hash mod capacity` with probe count 0; a zero-capacity table returns
`TableIsEmpty`.  Fuel `capacity + 1` always suffices (`searchLoop_no_fuelOut`
below). -/
def search_hashed (t : RawTableM K V) (h : Nat) (k : K) : InternalEntryM :=
  if t.cap = 0 then .tableEmpty
  else searchLoop t h k (t.cap + 1) (h % t.cap) 0

/-- Modelled from the spec (§4.3 Robin-Hood insert): carry entry `e`, whose
displacement at slot `j` is `d`, forward from `j`; place it in the first
empty slot, stealing the slot of any poorer (strictly smaller displacement)
occupant on the way and carrying that occupant onward. -/
def rhLoop (c : Nat) (b : Buckets K V) :
    Nat → Nat → (Nat × K × V) → Nat → Buckets K V
  | 0, _, _, _ => b
  | fuel + 1, j, e, d =>
    match bGet b j with
    | none => upd b j (some e)
    | some e' =>
      let d' := dispAt c j e'.1
      if d' < d then rhLoop c (upd b j (some e)) fuel ((j + 1) % c) e' (d' + 1)
      else rhLoop c b fuel ((j + 1) % c) e (d + 1)

/-- Modelled from the spec (§4.3): `entry.rs::robin_hood` at a
`NeqElem(i, p)` site — swap the new triple into slot `i` (its occupant is
poorer since `displacement < p`) and cascade; `size` increments once.  The
same loop started at an empty slot also covers the `NoElem` placement. -/
def placeVacant (t : RawTableM K V) (i p h : Nat) (k : K) (v : V) :
    RawTableM K V :=
  { t with buckets := rhLoop t.cap t.buckets (t.cap + 1) i (h, k, v) p,
           size := t.size + 1 }

/-- Modelled from the spec (§4.3 Remove): after the bucket at `hole` was
emptied, repeatedly move the next bucket back one slot while it is full and
has displacement greater than zero. -/
def shiftLoop (c : Nat) (b : Buckets K V) : Nat → Nat → Buckets K V
  | 0, _ => b
  | fuel + 1, hole =>
    let j := (hole + 1) % c
    match bGet b j with
    | none => b
    | some e =>
      if 0 < dispAt c j e.1 then
        shiftLoop c (upd (upd b hole (some e)) j none) fuel j
      else b

/-- Modelled from the spec (§4.3): `pop_internal` — take the triple out of
full bucket `i` and backward-shift the following buckets; `size`
decrements. -/
def pop_internal (t : RawTableM K V) (i : Nat) : RawTableM K V :=
  { t with buckets := shiftLoop t.cap (upd t.buckets i none) (t.cap + 1) i,
           size := t.size - 1 }

variable (hashK : Option Unit → K → Nat)

/-- The map's hash of a key under the current builder mode: the hasher's
`finish`, with the high bit forced to 1 (spec §4.2 `SafeHash`). -/
def make_hash (b : Option Unit) (k : K) : Nat :=
  (hashK b k % U64MOD) ||| 2 ^ 63

/-- Modelled from the spec (§4.5): the map façade ties the hash-builder state
(`none` fast, `some ()` safe) to the raw table. -/
structure HashMapM (K V : Type) where
  hash_builder : Option Unit
  table : RawTableM K V

/-- `HashMap::new()` (spec §4.5): the empty map of capacity 0. -/
def newMap (K V : Type) : HashMapM K V := ⟨none, freshTable K V 0⟩

/-- `uses_safe_hashing` of the map's builder (`adaptive_hashing.rs`). -/
def usesSafe (m : HashMapM K V) : Bool := m.hash_builder.isSome

/-- Modelled from the spec (§4.5): replace the value of the occupied bucket
at `i` (`entry.rs::OccupiedEntry::insert` swaps only the value). -/
def replaceValue (t : RawTableM K V) (i : Nat) (v : V) : RawTableM K V :=
  match bGet t.buckets i with
  | some (h0, k0, _) => { t with buckets := upd t.buckets i (some (h0, k0, v)) }
  | none => t

/-- Modelled from the spec (§4.5): `insert_hashed_nocheck` — search for the
key and place it without any safeguard check; the hash `h` was computed by
the caller. -/
def insert_hashed_nocheck (t : RawTableM K V) (h : Nat) (k : K) (v : V) :
    RawTableM K V :=
  match search_hashed t h k with
  | .occupied i => replaceValue t i v
  | .vacantNo i => placeVacant t i 0 h k v
  | .vacantNeq i p => placeVacant t i p h k v
  | .tableEmpty => t
  | .fuelOut => t

/-- Modelled from the spec (§4.1, §4.5): build a fresh table of capacity
`newCap` and insert the listed entries in order with freshly computed hashes
(spec §4.5 growth: "rehashes with a freshly computed hash per key"). -/
def rebuildInto (b : Option Unit) (es : List (K × V)) (newCap : Nat) :
    RawTableM K V :=
  es.foldl (fun t e => insert_hashed_nocheck t (make_hash hashK b e.1) e.1 e.2)
    (freshTable K V newCap)

/-- The full buckets of a table in slot order (spec §4.1 iteration). -/
def entriesList (t : RawTableM K V) : List (K × V) :=
  (List.range t.cap).filterMap fun i => (bGet t.buckets i).map fun e => (e.2.1, e.2.2)

/-- Modelled from the spec (§4.5): `resize` rebuilds all entries into a fresh
table of capacity `newCap` under the unchanged builder. -/
def resize (m : HashMapM K V) (newCap : Nat) : HashMapM K V :=
  { m with table := rebuildInto hashK m.hash_builder (entriesList m.table) newCap }

/-- `adaptive_map.rs::rebuild_table`: rebuild all entries with newly computed
hashes into a fresh table of identical capacity. -/
def rebuild_table (m : HashMapM K V) : HashMapM K V :=
  { m with table :=
      rebuildInto hashK m.hash_builder (entriesList m.table) m.table.cap }

/-- The map-level mode switch
(`AdaptiveState::switch_to_safe_hashing`, see above). -/
def switchBuilder (m : HashMapM K V) : HashMapM K V :=
  { m with hash_builder := some () }

/-- `adaptive_map.rs::DISPLACEMENT_THRESHOLD`. -/
def DISPLACEMENT_THRESHOLD : Nat := 128

/-- `adaptive_map.rs`: `LOAD_FACTOR_THRESHOLD: f32 = 0.2`.  The nearest `f32`
to 0.2 is `13421773 / 2 ^ 26`; for the sizes in play (`size < 2 ^ 24`,
capacity a power of two) the source's `size as f32 / capacity as f32` is
exact, so `size / capacity ≥ 0.2f32` is the exact rational comparison
`2 ^ 26 * size ≥ 13421773 * capacity`. -/
def loadGE (t : RawTableM K V) : Bool := 2 ^ 26 * t.size ≥ 13421773 * t.cap

/-- `adaptive_map.rs::reduce_displacement`: if the load factor is at least
`LOAD_FACTOR_THRESHOLD`, double the capacity; otherwise switch the builder to
safe hashing (unconditionally) and rebuild at identical capacity. -/
def reduce_displacement (m : HashMapM K V) : HashMapM K V :=
  if loadGE m.table then resize hashK m (m.table.cap * 2)
  else rebuild_table hashK (switchBuilder m)

/-- Modelled from the spec (§4.5): the initial capacity of the lazily
allocated table.  The spec does not fix the number; the reference's
`INITIAL_CAPACITY` (referenced in `adaptive_map.rs`) is 32. -/
def INITIAL_CAPACITY : Nat := 32

/-- Modelled from the spec (§4.5): `reserve(1)` before an insertion —
allocate the initial table if the capacity is 0, and grow (double) when
`size + 1 > 0.909 * capacity`. -/
def reserve_one (m : HashMapM K V) : HashMapM K V :=
  if m.table.cap = 0 then { m with table := freshTable K V INITIAL_CAPACITY }
  else if 1000 * (m.table.size + 1) > 909 * m.table.cap then
    resize hashK m (m.table.cap * 2)
  else m

/-- The safeguarded insertion (`adaptive_map.rs::safeguarded_search` +
`safeguard_vacant_entry`, and the spec's §4.4/§4.5 insertion path): reserve,
search; on a vacant entry whose displacement exceeds
`DISPLACEMENT_THRESHOLD`, run `reduce_displacement`, re-hash and re-insert
without a safeguard.  The boolean records whether remediation ran. -/
def insertEx (m : HashMapM K V) (k : K) (v : V) : HashMapM K V × Bool :=
  let m0 := reserve_one hashK m
  let h := make_hash hashK m0.hash_builder k
  match search_hashed m0.table h k with
  | .occupied i => ({ m0 with table := replaceValue m0.table i v }, false)
  | .vacantNo i =>
    if DISPLACEMENT_THRESHOLD < dispAt m0.table.cap i h then
      let m1 := reduce_displacement hashK m0
      let h1 := make_hash hashK m1.hash_builder k
      ({ m1 with table := insert_hashed_nocheck m1.table h1 k v }, true)
    else ({ m0 with table := placeVacant m0.table i 0 h k v }, false)
  | .vacantNeq i p =>
    if DISPLACEMENT_THRESHOLD < dispAt m0.table.cap i h then
      let m1 := reduce_displacement hashK m0
      let h1 := make_hash hashK m1.hash_builder k
      ({ m1 with table := insert_hashed_nocheck m1.table h1 k v }, true)
    else ({ m0 with table := placeVacant m0.table i p h k v }, false)
  | .tableEmpty => (m0, false)
  | .fuelOut => (m0, false)

/-- `HashMap::insert` (spec §4.5), dropping the remediation flag. -/
def insertM (m : HashMapM K V) (k : K) (v : V) : HashMapM K V :=
  (insertEx hashK m k v).1

/-- `HashMap::get` (spec §4.5): a plain search, no safeguard. -/
def getM (m : HashMapM K V) (k : K) : Option V :=
  match search_hashed m.table (make_hash hashK m.hash_builder k) k with
  | .occupied i => (bGet m.table.buckets i).map fun e => e.2.2
  | _ => none

/-- `HashMap::remove` (spec §4.5): search; pop the occupied bucket and
return its value. -/
def removeEx (m : HashMapM K V) (k : K) : Option V × HashMapM K V :=
  match search_hashed m.table (make_hash hashK m.hash_builder k) k with
  | .occupied i =>
    ((bGet m.table.buckets i).map (fun e => e.2.2),
      { m with table := pop_internal m.table i })
  | _ => (none, m)

end MapModel

section MapLemmas

variable {K V : Type} [DecidableEq K] (hashK : Option Unit → K → Nat)

/-- `reserve_one` never touches the hash builder. -/
theorem reserve_one_builder (m : HashMapM K V) :
    (reserve_one hashK m).hash_builder = m.hash_builder := by
  unfold reserve_one resize
  split
  · rfl
  · split <;> rfl

/-- `insert_hashed_nocheck` preserves the capacity. -/
theorem nocheck_cap (t : RawTableM K V) (h : Nat) (k : K) (v : V) :
    (insert_hashed_nocheck t h k v).cap = t.cap := by
  unfold insert_hashed_nocheck
  split
  · unfold replaceValue
    split <;> rfl
  · rfl
  · rfl
  · rfl
  · rfl

/-- Folding `insert_hashed_nocheck` over a list preserves the capacity. -/
theorem foldl_nocheck_cap (f : K × V → Nat) (es : List (K × V))
    (t : RawTableM K V) :
    (es.foldl (fun t e => insert_hashed_nocheck t (f e) e.1 e.2) t).cap
      = t.cap := by
  induction es generalizing t with
  | nil => rfl
  | cons e es ih =>
    simp only [List.foldl_cons]
    rw [ih, nocheck_cap]

/-- `rebuildInto` produces a table of exactly the requested capacity. -/
theorem rebuildInto_cap (b : Option Unit) (es : List (K × V)) (c : Nat) :
    (rebuildInto hashK b es c).cap = c := by
  unfold rebuildInto
  exact foldl_nocheck_cap _ es _

/-- `reduce_displacement` leaves the builder unchanged (growth branch) or
sets it to safe mode (switch branch); it never returns to fast mode. -/
theorem reduce_displacement_builder (m : HashMapM K V) :
    (reduce_displacement hashK m).hash_builder = m.hash_builder ∨
    (reduce_displacement hashK m).hash_builder = some () := by
  unfold reduce_displacement resize rebuild_table switchBuilder
  split
  · exact Or.inl rfl
  · exact Or.inr rfl

/-- An insertion leaves the builder unchanged or switches it to safe mode. -/
theorem insertEx_builder (m : HashMapM K V) (k : K) (v : V) :
    (insertEx hashK m k v).1.hash_builder = m.hash_builder ∨
    (insertEx hashK m k v).1.hash_builder = some () := by
  have hres := reserve_one_builder hashK m
  unfold insertEx
  dsimp only
  split
  · exact Or.inl hres
  · split
    · rcases reduce_displacement_builder hashK (reserve_one hashK m) with h | h
      · exact Or.inl (h.trans hres)
      · exact Or.inr h
    · exact Or.inl hres
  · split
    · rcases reduce_displacement_builder hashK (reserve_one hashK m) with h | h
      · exact Or.inl (h.trans hres)
      · exact Or.inr h
    · exact Or.inl hres
  · exact Or.inl hres
  · exact Or.inl hres

/-- A removal never touches the builder. -/
theorem removeEx_builder (m : HashMapM K V) (k : K) :
    (removeEx hashK m k).2.hash_builder = m.hash_builder := by
  unfold removeEx
  split
  · rfl
  · rfl

/-- The mutating map operations (spec §4.5): insertion and removal. -/
inductive MapOp (K V : Type) where
  | ins (k : K) (v : V)
  | del (k : K)

/-- Apply one operation to the map. -/
def applyOp (m : HashMapM K V) : MapOp K V → HashMapM K V
  | .ins k v => insertM hashK m k v
  | .del k => (removeEx hashK m k).2

/-- Apply a sequence of operations to the map, in order. -/
def applyOps (m : HashMapM K V) (ops : List (MapOp K V)) : HashMapM K V :=
  ops.foldl (applyOp hashK) m

end MapLemmas

/-! ### Claim C5: mode monotonicity -/

/-- C5: once the builder is in safe mode, no sequence of map operations
(insertions and removals) ever returns it to fast mode: every operation
either leaves the builder unchanged or switches it to safe mode. -/
theorem mode_monotonic {K V : Type} [DecidableEq K]
    (hashK : Option Unit → K → Nat) (m : HashMapM K V) (ops : List (MapOp K V))
    (hsafe : usesSafe m = true) : usesSafe (applyOps hashK m ops) = true := by
  induction ops generalizing m with
  | nil => exact hsafe
  | cons op ops ih =>
    have hstep : usesSafe (applyOp hashK m op) = true := by
      cases op with
      | ins k v =>
        unfold applyOp insertM usesSafe
        rcases insertEx_builder hashK m k v with h | h <;> rw [h]
        · exact hsafe
        · rfl
      | del k =>
        unfold applyOp usesSafe
        rw [removeEx_builder]
        exact hsafe
    exact ih _ hstep

/-! ### Concrete instantiations for counterexamples and witnesses -/

/-- A concrete hash function for small counterexamples: every key hashes to
0 in both modes. -/
def constHashK : Option Unit → Nat → Nat := fun _ _ => 0

/-- A concrete map already in safe mode: capacity 32 with one entry (key 0)
stored at its ideal slot 0; its load factor 1/32 is below the threshold. -/
def safeSmallMap : HashMapM Nat Unit :=
  ⟨some (), ⟨32, 1, upd (freshBuckets Nat Unit 32) 0
    (some (make_hash constHashK (some ()) 0, 0, ()))⟩⟩

/-- Witness for C5: on the concrete safe-mode map, inserting key 1 and then
removing key 0 leaves the builder in safe mode. -/
theorem mode_monotonic_witness :
    usesSafe (applyOps constHashK safeSmallMap
      [MapOp.ins 1 (), MapOp.del 0]) = true :=
  mode_monotonic constHashK safeSmallMap [MapOp.ins 1 (), MapOp.del 0]
    (by decide)

/-! ### Claim C2: the remediation decision procedure -/

/-- C2 counterexample: on a map already in safe mode with load factor below
the threshold, `reduce_displacement` rebuilds at identical capacity (32) —
it does not double the capacity as the claim states for the already-Safe
case; the source's low-load branch switches to safe hashing unconditionally
and never doubles. -/
theorem reduce_displacement_safe_mode_counterexample :
    safeSmallMap.hash_builder = some ()
  ∧ loadGE safeSmallMap.table = false
  ∧ (reduce_displacement constHashK safeSmallMap).table.cap = 32
  ∧ ¬ (reduce_displacement constHashK safeSmallMap).table.cap
      = 2 * safeSmallMap.table.cap := by
  refine ⟨rfl, by decide, by decide, by decide⟩

/-- C2 amended: when remediation is triggered, the decision procedure is:
if `size / capacity ≥ LOAD_FACTOR_THRESHOLD` (0.2 as an f32), the capacity
is doubled and the builder is unchanged; otherwise the builder is replaced
by a fresh safe state — switching from fast mode if necessary, and
regardless of whether it was already safe — and the table is rebuilt at
identical capacity; no doubling occurs in the low-load branch. -/
theorem reduce_displacement_decision {K V : Type} [DecidableEq K]
    (hashK : Option Unit → K → Nat) (m : HashMapM K V) :
    (loadGE m.table = true →
      (reduce_displacement hashK m).table.cap = m.table.cap * 2 ∧
      (reduce_displacement hashK m).hash_builder = m.hash_builder)
  ∧ (loadGE m.table = false →
      (reduce_displacement hashK m).table.cap = m.table.cap ∧
      (reduce_displacement hashK m).hash_builder = some ()) := by
  constructor
  · intro hload
    unfold reduce_displacement resize
    rw [if_pos hload]
    exact ⟨rebuildInto_cap hashK _ _ _, rfl⟩
  · intro hload
    unfold reduce_displacement rebuild_table switchBuilder
    rw [if_neg (by simp [hload])]
    exact ⟨rebuildInto_cap hashK _ _ _, rfl⟩

/-- Witness for the amended C2 at the concrete safe-mode low-load map. -/
theorem reduce_displacement_decision_witness :
    (reduce_displacement constHashK safeSmallMap).table.cap
      = safeSmallMap.table.cap
  ∧ (reduce_displacement constHashK safeSmallMap).hash_builder = some () :=
  (reduce_displacement_decision constHashK safeSmallMap).2 (by decide)

/-! ### Claim C8: the displacement formula -/

/-- C8: for every table whose capacity is a nonzero power of two `2 ^ k`
(with `k ≤ 64` since the capacity fits a 64-bit `usize`), the source's
displacement — `index.wrapping_sub(hash) & (capacity - 1)` from
`entry.rs::VacantEntryState::displacement` — equals the spec's
`(index − (hash mod capacity)) mod capacity`. -/
theorem displacement_src_eq_spec (i h c k : Nat) (hc : c = 2 ^ k)
    (hk : k ≤ 64) : displacement_src i h c = displacement_spec i h c := by
  subst hc
  unfold displacement_src displacement_spec U64MOD
  rw [Nat.and_pow_two_sub_one_eq_mod]
  have hdvd : (2 : ℕ) ^ k ∣ 2 ^ 64 := pow_dvd_pow 2 hk
  rw [Nat.mod_mod_of_dvd _ hdvd]
  have h1 : h % 2 ^ 64 ≤ 2 ^ 64 := Nat.le_of_lt (Nat.mod_lt _ (by positivity))
  have h2 : h % 2 ^ k ≤ 2 ^ k := Nat.le_of_lt (Nat.mod_lt _ (by positivity))
  have h3 : h % 2 ^ 64 % 2 ^ k = h % 2 ^ k := Nat.mod_mod_of_dvd _ hdvd
  have hmod : Nat.ModEq (2 ^ k) (h % 2 ^ 64) (h % 2 ^ k) := by
    unfold Nat.ModEq
    rw [h3, Nat.mod_mod_of_dvd _ dvd_rfl]
  have main : Nat.ModEq (2 ^ k) (2 ^ 64 - h % 2 ^ 64) (2 ^ k - h % 2 ^ k) := by
    have e1 : (2 : ℕ) ^ 64 - h % 2 ^ 64 + h % 2 ^ 64 = 2 ^ 64 := Nat.sub_add_cancel h1
    have e2 : (2 : ℕ) ^ k - h % 2 ^ k + h % 2 ^ k = 2 ^ k := Nat.sub_add_cancel h2
    have step : Nat.ModEq (2 ^ k) ((2 ^ 64 - h % 2 ^ 64) + h % 2 ^ 64)
        ((2 ^ k - h % 2 ^ k) + h % 2 ^ 64) := by
      have s1 : Nat.ModEq (2 ^ k) ((2 ^ k - h % 2 ^ k) + h % 2 ^ k)
          ((2 ^ k - h % 2 ^ k) + h % 2 ^ 64) := Nat.ModEq.add_left _ hmod.symm
      have s2 : Nat.ModEq (2 ^ k) (2 ^ 64) (2 ^ k) :=
        (Nat.modEq_zero_iff_dvd.mpr hdvd).trans
          (Nat.modEq_zero_iff_dvd.mpr dvd_rfl).symm
      have s3 : Nat.ModEq (2 ^ k) (2 ^ k) ((2 ^ k - h % 2 ^ k) + h % 2 ^ k) := by
        rw [e2]
      rw [e1]
      exact (s2.trans s3).trans s1
    exact Nat.ModEq.add_right_cancel' _ step
  have goal1 : Nat.ModEq (2 ^ k) (i + (2 ^ 64 - h % 2 ^ 64))
      (i + (2 ^ k - h % 2 ^ k)) := Nat.ModEq.add_left i main
  have e3 : i + 2 ^ k - h % 2 ^ k = i + (2 ^ k - h % 2 ^ k) := Nat.add_sub_assoc h2 i
  rw [e3]
  exact goal1

/-- Witness for C8 at a concrete input: capacity 256, index 5, hash
with value 1523546. -/
theorem displacement_src_eq_spec_witness :
    displacement_src 5 1523546 256 = displacement_spec 5 1523546 256 :=
  displacement_src_eq_spec 5 1523546 256 8 (by decide) (by decide)

/-! ### Claim C10: the fast path's 8-byte precondition -/

/-- C10: in fast mode, `AdaptiveHasher::write` succeeds exactly on messages
of at most 8 bytes and panics on longer ones; safe mode accepts any message;
and `load_u64_le` reads exactly its length argument's bytes — bytes beyond
`msg.length` never affect the loaded value, so the unchecked indexing stays
in bounds for `len = msg.len()`. -/
theorem adaptive_write_precondition (msg buf extra st : List Nat) :
    ((fastHasher.write msg).isSome ↔ msg.length ≤ 8)
  ∧ ((AdaptiveHasher.mk (some st) 0).write msg).isSome
  ∧ (msg.length ≤ buf.length →
      load_u64_le (buf ++ extra) msg.length = load_u64_le buf msg.length) := by
  refine ⟨?_, ?_, ?_⟩
  · unfold AdaptiveHasher.write fastHasher
    by_cases hlen : msg.length ≤ 8 <;> simp [hlen]
  · simp [AdaptiveHasher.write]
  · intro hle
    unfold load_u64_le
    rw [List.take_append_of_le_length hle]

/-- Witness for C10 at concrete inputs: a 3-byte message, a 4-byte buffer
with 2 junk bytes appended, and a safe hasher that has seen one byte. -/
theorem adaptive_write_precondition_witness :
    (((fastHasher.write [1, 2, 3]).isSome ↔ ([1, 2, 3] : List Nat).length ≤ 8)
  ∧ ((AdaptiveHasher.mk (some [9]) 0).write [1, 2, 3]).isSome
  ∧ (([1, 2, 3] : List Nat).length ≤ ([4, 5, 6, 7] : List Nat).length →
      load_u64_le ([4, 5, 6, 7] ++ [8, 9]) 3 = load_u64_le [4, 5, 6, 7] 3)) :=
  adaptive_write_precondition [1, 2, 3] [4, 5, 6, 7] [8, 9] [9]

/-! ### Claim C6: the fast-path finaliser -/

/-- The finaliser exactly as the claim words it: multiply by `PRIME_2`,
shift-xor (right shift by `s1`), multiply by `PRIME_3`, final shift-xor
(right shift by `s2`), wrapping modulo `2 ^ 64`; the shift amounts are left
as parameters since the claim does not give them. -/
def fourStepFinalizer (s1 s2 data : Nat) : Nat :=
  let a := data % U64MOD * PRIME_2 % U64MOD
  let b := a ^^^ (a >>> s1)
  let c := b * PRIME_3 % U64MOD
  c ^^^ (c >>> s2)

/-- C6 counterexample: on the 8-byte message `FF FF FF FF FF FF FF FF`, the
fast hasher's `finish` (the code's `mix` of the little-endian load) differs
from the claim's four-step finaliser for every pair of right-shift amounts
below 64: the code's finaliser performs an additional `hash ^= hash >> 33`
before the first multiplication, which the claim omits. -/
theorem mix_four_step_counterexample :
    ((AdaptiveHasher.write fastHasher (List.replicate 8 255)).map
        (AdaptiveHasher.finish fun _ => 0)
      = some (mix (load_u64_le (List.replicate 8 255) 8)))
  ∧ ((List.range 64).all fun s1 => (List.range 64).all fun s2 =>
      fourStepFinalizer s1 s2 (load_u64_le (List.replicate 8 255) 8)
        != mix (load_u64_le (List.replicate 8 255) 8)) = true := by
  constructor
  · rfl
  · decide

/-- C6 amended: in fast mode, for any message of at most 8 bytes, `finish`
returns the xxHash64 finaliser of the little-endian load of the message,
where the finaliser is exactly: xor with self shifted right 33, multiply by
`PRIME_2 = 14029467366897019727`, xor-shift right 29, multiply by
`PRIME_3 = 1609587929392839161`, final xor-shift right 32, all products
wrapping modulo `2 ^ 64`. -/
theorem fast_finish_is_xxh64_finalizer (f : List Nat → Nat) (msg : List Nat)
    (hlen : msg.length ≤ 8) :
    (fastHasher.write msg).map (AdaptiveHasher.finish f) = some (
      let d := load_u64_le msg msg.length
      let a := d ^^^ (d >>> 33)
      let b := a * PRIME_2 % U64MOD
      let c := b ^^^ (b >>> 29)
      let e := c * PRIME_3 % U64MOD
      e ^^^ (e >>> 32)) := by
  simp only [AdaptiveHasher.write, fastHasher, hlen, if_pos, Option.map_some]
  rfl

/-- Witness for the amended C6 at the concrete 4-byte message of the u32
value 513314 (`22 D5 07 00` little-endian). -/
theorem fast_finish_is_xxh64_finalizer_witness :
    (fastHasher.write [34, 213, 7, 0]).map
        (AdaptiveHasher.finish fun _ => 0) = some (
      let d := load_u64_le [34, 213, 7, 0] 4
      let a := d ^^^ (d >>> 33)
      let b := a * PRIME_2 % U64MOD
      let c := b ^^^ (b >>> 29)
      let e := c * PRIME_3 % U64MOD
      e ^^^ (e >>> 32)) :=
  fast_finish_is_xxh64_finalizer (fun _ => 0) [34, 213, 7, 0] (by decide)

/-! ### Claim C7: the secret source and the thread-local key cache -/

/-- The identity stream, standing for a secret source whose successive draws
are pairwise distinct. -/
def idStream : Nat → Nat := fun i => i

/-- A fresh thread context: no cached keys, no draws consumed. -/
def ctxFresh : ThreadCtx := ⟨none, idStream, 0⟩

/-- C7 counterexample: two successive Fast-to-Safe switches on the same
thread.  The second created Safe state reuses the first one's keys `(0, 1)`
from the thread-local cache instead of drawing the next pair `(2, 3)` from
the secret source, and only one pair (two u64 values) is ever drawn. -/
theorem switch_reuses_thread_keys_counterexample :
    (AdaptiveState.switch_to_safe_hashing AdaptiveState.new_for_fast_hashing
        ctxFresh).1.inner = some ⟨0, 1⟩
  ∧ (AdaptiveState.switch_to_safe_hashing
      (AdaptiveState.switch_to_safe_hashing AdaptiveState.new_for_fast_hashing
        ctxFresh).1
      (AdaptiveState.switch_to_safe_hashing AdaptiveState.new_for_fast_hashing
        ctxFresh).2).1.inner = some ⟨0, 1⟩
  ∧ ¬ (AdaptiveState.switch_to_safe_hashing
      (AdaptiveState.switch_to_safe_hashing AdaptiveState.new_for_fast_hashing
        ctxFresh).1
      (AdaptiveState.switch_to_safe_hashing AdaptiveState.new_for_fast_hashing
        ctxFresh).2).1.inner = some ⟨idStream 2, idStream 3⟩
  ∧ (AdaptiveState.switch_to_safe_hashing
      (AdaptiveState.switch_to_safe_hashing AdaptiveState.new_for_fast_hashing
        ctxFresh).1
      (AdaptiveState.switch_to_safe_hashing AdaptiveState.new_for_fast_hashing
        ctxFresh).2).2.used = 2 := by
  refine ⟨rfl, rfl, by decide, rfl⟩

/-- C7 amended: the secret source is consulted at most once per created Safe
state — in fact at most once per thread: after one creation the drawn pair is
cached in the thread-local cell, a second creation on the same thread returns
the same keys and consumes nothing, and any single creation consumes at most
one pair (two u64 draws). -/
theorem sip_keys_cached_per_thread (ctx : ThreadCtx) :
    ((SipHashState.new ctx).2.keysCache
      = some ((SipHashState.new ctx).1.k0, (SipHashState.new ctx).1.k1))
  ∧ (SipHashState.new (SipHashState.new ctx).2).1 = (SipHashState.new ctx).1
  ∧ (SipHashState.new (SipHashState.new ctx).2).2 = (SipHashState.new ctx).2
  ∧ (SipHashState.new ctx).2.used ≤ ctx.used + 2 := by
  cases hc : ctx.keysCache with
  | none => simp [SipHashState.new, hc]
  | some p => cases p with
    | mk a b => simp [SipHashState.new, hc]

end Hashmap2
